import Mathlib

/-!
# Verification of the p2plab cluster metadata persistence layer

A shallow embedding of `src/metadata/cluster.go` (package `metadata` of
Netflix/p2plab): the bolt-backed storage model, the cluster entity codec
(`writeCluster` / `readCluster` / `readClusterDefinition` /
`writeClusterDefinition`) and the lifecycle operations (`GetCluster`,
`ListClusters`, `CreateCluster`, `UpdateCluster`, `LabelClusters`,
`DeleteCluster`), together with proofs of the specified properties.

Helper routines that live elsewhere in the repository (`buckets.go`,
`errdefs`, the peer-definition codec) are modelled from the specification;
each such definition carries a doc comment starting `Modelled from the
spec:`.  Machine integers are modelled as `Int`/`Nat` (Go `int` overflow is
not observable in this code's parse/print paths for representable values),
byte strings as `String`, and `time.Time` as a `Nat` instant encoded in a
canonical decimal text form.
-/

namespace P2plab

/-! ## The storage model

A bolt bucket holds flat key/value fields and child buckets, with unique
keys.  We model a bucket as an association list of entries; bolt's
`Get`/`Bucket` lookups take the first (in a well-formed store: the only)
entry with the given key, `Put`/recreate replace in place or append. -/

/-- One slot of a bucket: either a flat field (byte-string value) or a
child bucket (bolt reports `nil` for the value of such a slot during
`ForEach`). -/
inductive Entry where
  | val (v : String)
  | sub (entries : List (String × Entry))
deriving Inhabited

/-- A bolt bucket: its list of key/entry pairs in iteration order. -/
abbrev Bucket := List (String × Entry)

/-- Keys of a bucket. -/
def keysOf (b : Bucket) : List String := b.map Prod.fst

/-- `bkt.Get(k)` / `bkt.Bucket(k)` combined: the first entry stored under
key `k`. -/
def getEntry (b : Bucket) (k : String) : Option Entry :=
  (b.find? (fun e => e.1 = k)).map Prod.snd

/-- `bkt.Bucket(k)`: the child bucket under `k`, or `none` if the key is
absent or holds a flat value. -/
def getBucket (b : Bucket) (k : String) : Option Bucket :=
  match getEntry b k with
  | some (.sub es) => some es
  | _ => none

/-- `bkt.Get(k)` restricted to flat fields: `none` if the key is absent or
holds a child bucket. -/
def getValue (b : Bucket) (k : String) : Option String :=
  match getEntry b k with
  | some (.val v) => some v
  | _ => none

/-- Store an entry under `k`: replace the first existing entry with that
key in place, or append. -/
def putE (b : Bucket) (k : String) (e : Entry) : Bucket :=
  match b with
  | [] => [(k, e)]
  | (k', e') :: rest => if k' = k then (k, e) :: rest else (k', e') :: putE rest k e

/-- `bkt.Put(k, v)` for a flat field. -/
def putVal (b : Bucket) (k v : String) : Bucket := putE b k (.val v)

/-- Store a whole child bucket under `k` (the net effect of
`RecreateBucket`/`CreateBucket` followed by filling the child). -/
def putSub (b : Bucket) (k : String) (c : Bucket) : Bucket := putE b k (.sub c)

/-- `bkt.DeleteBucket(k)`'s effect on the entry list. -/
def eraseKey (b : Bucket) (k : String) : Bucket :=
  match b with
  | [] => []
  | (k', e') :: rest => if k' = k then rest else (k', e') :: eraseKey rest k

/-! ## Decimal integer text codec (`strconv.Itoa` / `strconv.Atoi`)

Go's `strconv.Itoa` prints an `int` in decimal; `strconv.Atoi` parses an
optional sign followed by at least one decimal digit.  (`Atoi`'s 64-bit
range check is not modelled: this code only ever parses strings the
encoder printed from in-range values.) -/

/-- The decimal digit character for `n % 10`. -/
def digitCh (n : Nat) : Char :=
  match n with
  | 0 => '0' | 1 => '1' | 2 => '2' | 3 => '3' | 4 => '4'
  | 5 => '5' | 6 => '6' | 7 => '7' | 8 => '8' | _ => '9'

/-- Little-endian decimal digits, with enough fuel to terminate (the
fuel is structural so that the kernel can evaluate the function; with
fuel above `n` the result does not depend on it, see
`natDigitsRevAux_congr`). -/
def natDigitsRevAux : Nat → Nat → List Char
  | _, 0 => []
  | n, fuel + 1 =>
    if n < 10 then [digitCh n] else digitCh (n % 10) :: natDigitsRevAux (n / 10) fuel

/-- Little-endian decimal digits of a natural number. -/
def natDigitsRev (n : Nat) : List Char := natDigitsRevAux n (n + 1)

/-- Decimal text of a natural number (`strconv.Itoa` on non-negatives). -/
def itoaNat (n : Nat) : String := ⟨(natDigitsRev n).reverse⟩

/-- `strconv.Itoa`. -/
def itoa (n : Int) : String :=
  if n < 0 then "-" ++ itoaNat n.natAbs else itoaNat n.toNat

/-- Big-endian accumulator loop of decimal parsing: fails on the first
non-digit character. -/
def parseNatAux : List Char → Nat → Option Nat
  | [], acc => some acc
  | c :: cs, acc =>
      if c.isDigit then parseNatAux cs (acc * 10 + (c.toNat - 48)) else none

/-- Parse an unsigned decimal numeral (at least one digit, digits only). -/
def parseNat? (s : String) : Option Nat :=
  match s.toList with
  | [] => none
  | cs => parseNatAux cs 0

/-- The error taxonomy (errdefs classes together with the bolt error values
this file's code branches on). -/
inductive Err where
  | notFound
  | alreadyExists
  | invalidArgument
  | formatError
  | incompatibleValue
deriving DecidableEq

/-- `strconv.Atoi`: optional sign, then at least one digit.  A parse
failure is the spec's `FormatError` class ("stored data fails to parse into
its expected type"). -/
def atoi (s : String) : Except Err Int :=
  match s.toList with
  | [] => .error .formatError
  | c :: cs =>
    if c = '-' then
      match cs with
      | [] => .error .formatError
      | _ =>
        match parseNatAux cs 0 with
        | some n => .ok (-(n : Int))
        | none => .error .formatError
    else if c = '+' then
      match cs with
      | [] => .error .formatError
      | _ =>
        match parseNatAux cs 0 with
        | some n => .ok (n : Int)
        | none => .error .formatError
    else
      match parseNatAux (c :: cs) 0 with
      | some n => .ok (n : Int)
      | none => .error .formatError

/-! ## The data model (`cluster.go` lines 31–99) -/

/-- `ClusterStatus` is a string enum. -/
abbrev ClusterStatus := String

/-- Modelled from the spec: `PeerDefinition` is an opaque nested structure
(its field set is outside this core's concern); it "has a codec that
reads/writes it into a container".  We model it as a single opaque payload
written as one flat field of the nested peer container. -/
structure PeerDefinition where
  payload : String
deriving DecidableEq, Repr

/-- `ClusterGroup` (Go `int` size is modelled as `Int`). -/
structure ClusterGroup where
  Size : Int
  InstanceType : String
  Region : String
  Peer : Option PeerDefinition
  Labels : List String
deriving DecidableEq, Repr

/-- `ClusterDefinition`. -/
structure ClusterDefinition where
  Groups : List ClusterGroup
deriving DecidableEq, Repr

/-- `Cluster` (timestamps are modelled as `Nat` instants). -/
structure Cluster where
  ID : String
  Status : ClusterStatus
  Definition : ClusterDefinition
  Labels : List String
  CreatedAt : Nat
  UpdatedAt : Nat
deriving DecidableEq, Repr

/-- `ClusterDefinition.Size`: the sum of the group sizes. -/
def ClusterDefinition.Size (d : ClusterDefinition) : Int :=
  d.Groups.foldl (fun sum g => sum + g.Size) 0

/-- `ClusterDefinition.GenerateLabels`: collect the set of regions and the
set of instance types (Go `map` sets; each set is emitted once per distinct
member and set-iteration order is not observable to the properties proved
here, so each set is modelled as the dedup of the collected list), then
append all regions followed by all instance types. -/
def ClusterDefinition.GenerateLabels (d : ClusterDefinition) : List String :=
  (d.Groups.map ClusterGroup.Region).dedup ++ (d.Groups.map ClusterGroup.InstanceType).dedup

/-- Modelled from the spec: identifier validation — "must satisfy a format
rule (non-empty, restricted character set) checked before Create". -/
def validIDChar (c : Char) : Bool :=
  c.isAlphanum || c = '-' || c = '_' || c = '.'

/-- Modelled from the spec: `ValidateClusterID`, the format rule checked by
`Cluster.Validate` before Create. -/
def ValidateClusterID (id : String) : Except Err Unit :=
  if id = "" then .error .invalidArgument
  else if id.toList.all validIDChar then .ok () else .error .invalidArgument

/-- `Cluster.Validate` (`cluster.go` lines 43–49): validates the ID only. -/
def Cluster.Validate (c : Cluster) : Except Err Unit :=
  ValidateClusterID c.ID

/-! ## Labels, timestamps and peer codecs

These helpers live in the repository outside `src/` (`buckets.go`); they
are modelled from the spec §4.2. -/

/-- The contents of a freshly recreated labels container: one flat field
per label, keyed by the label text. -/
def labelsBucket (labels : List String) : Bucket :=
  labels.foldl (fun l lab => putVal l lab "") []

/-- Modelled from the spec: `writeLabels` — "recreate the labels child
container, writing one flat field per label (key = label text, value = a
non-nil sentinel/empty marker — presence of the key, not the value,
carries meaning)". -/
def writeLabels (bkt : Bucket) (labels : List String) : Bucket :=
  putSub bkt "labels" (labelsBucket labels)

/-- Modelled from the spec: `readLabels` — iterate the flat fields of the
labels child container collecting the keys (sub-containers are skipped); a
missing labels container yields the empty label list. -/
def readLabels (bkt : Bucket) : List String :=
  match getBucket bkt "labels" with
  | none => []
  | some lbkt => lbkt.filterMap (fun e => match e.2 with | .val _ => some e.1 | .sub _ => none)

/-- Modelled from the spec: `WriteTimestamps` — "write the two timestamps
as a fixed pair of flat fields under reserved keys, in a canonical time
text format, UTC". -/
def WriteTimestamps (bkt : Bucket) (created updated : Nat) : Bucket :=
  putVal (putVal bkt "created_at" (itoaNat created)) "updated_at" (itoaNat updated)

/-- One timestamp field: absent leaves the in-progress value unchanged, a
present field that fails to parse is a `FormatError` ("stored data fails
to parse into its expected type"). -/
def readTimeField (bkt : Bucket) (key : String) (dflt : Nat) : Except Err Nat :=
  match getValue bkt key with
  | none => .ok dflt
  | some s =>
    match parseNat? s with
    | none => .error .formatError
    | some n => .ok n

/-- Modelled from the spec: `ReadTimestamps` — the inverse of
`WriteTimestamps`. -/
def ReadTimestamps (bkt : Bucket) (created updated : Nat) : Except Err (Nat × Nat) :=
  match readTimeField bkt "created_at" created with
  | .error e => .error e
  | .ok c =>
    match readTimeField bkt "updated_at" updated with
    | .error e => .error e
    | .ok u => .ok (c, u)

/-- Modelled from the spec: `writePeerDefinition` — write the (opaque)
peer definition into the group's nested container under the reserved
"definition" key. -/
def writePeerDefinition (gbkt : Bucket) (p : PeerDefinition) : Bucket :=
  putSub gbkt "definition" [("payload", .val p.payload)]

/-- Modelled from the spec: `readPeerDefinition` — the inverse of
`writePeerDefinition` (called only when the nested "definition" container
is present). -/
def readPeerDefinition (gbkt : Bucket) : PeerDefinition :=
  { payload := ((getBucket gbkt "definition").bind (fun d => getValue d "payload")).getD "" }

/-! ## The cluster entity codec (`cluster.go` lines 277–432) -/

/-- The value a bolt `ForEach` closure receives for an entry: the stored
bytes for a flat field, `nil` for a child bucket; `readClusterDefinition`'s
group loop converts it with Go `string(v)`, so a child bucket yields `""`. -/
def entryText : Entry → String
  | .val v => v
  | .sub _ => ""

/-- The `gbkt.ForEach` body of `readClusterDefinition` (lines 338–352):
fold over the group container's entries, parsing the "size" field with
`strconv.Atoi` (the first parse failure aborts) and copying the
"instance_type" / "region" fields; every other key is ignored. -/
def readGroupFields : List (String × Entry) → ClusterGroup → Except Err ClusterGroup
  | [], g => .ok g
  | (k, e) :: rest, g =>
    if k = "size" then
      match atoi (entryText e) with
      | .error err => .error err
      | .ok n => readGroupFields rest { g with Size := n }
    else if k = "instance_type" then
      readGroupFields rest { g with InstanceType := entryText e }
    else if k = "region" then
      readGroupFields rest { g with Region := entryText e }
    else
      readGroupFields rest g

/-- One iteration of the group loop of `readClusterDefinition` (lines
320–357): read the group's labels, read the optional nested peer
definition (absent container ⇒ absent peer), then fold the flat fields. -/
def readGroup (gbkt : Bucket) : Except Err ClusterGroup :=
  let labels := readLabels gbkt
  let peer : Option PeerDefinition :=
    match getBucket gbkt "definition" with
    | none => none
    | some _ => some (readPeerDefinition gbkt)
  readGroupFields gbkt
    { Size := 0, InstanceType := "", Region := "", Peer := peer, Labels := labels }

/-- The probe loop of `readClusterDefinition` (lines 317–361): starting at
index `i`, look up the child container keyed by the decimal string of the
index and stop at the first miss.  The Go loop is unbounded; here it
carries fuel, which `readClusterDefinition` sets to one more than the
number of entries of the definition container — since the decimal keys of
distinct indices are distinct, a dense run of `n` present indices needs
`n` distinct entries, so the first missing index is always reached before
the fuel runs out (`readGroups_fuel_never_exhausted` below). -/
def readGroups (dbkt : Bucket) : Nat → Nat → Except Err (List ClusterGroup)
  | _, 0 => .ok []
  | i, fuel + 1 =>
    match getBucket dbkt (itoaNat i) with
    | none => .ok []
    | some gbkt =>
      match readGroup gbkt with
      | .error e => .error e
      | .ok g =>
        match readGroups dbkt (i + 1) fuel with
        | .error e => .error e
        | .ok rest => .ok (g :: rest)

/-- `readClusterDefinition` (lines 309–364): a missing "definition" child
container yields the empty definition without error; otherwise decode the
dense run of decimally-keyed group containers starting at 0. -/
def readClusterDefinition (bkt : Bucket) : Except Err ClusterDefinition :=
  match getBucket bkt "definition" with
  | none => .ok { Groups := [] }
  | some dbkt =>
    match readGroups dbkt 0 (dbkt.length + 1) with
    | .error e => .error e
    | .ok gs => .ok { Groups := gs }

/-- The final `bkt.ForEach` of `readCluster` (lines 293–306): skip child
buckets (`v == nil`), copy the "id" and "status" flat fields, ignore every
other key. -/
def readClusterFields : List (String × Entry) → Cluster → Cluster
  | [], c => c
  | (k, e) :: rest, c =>
    match e with
    | .sub _ => readClusterFields rest c
    | .val v =>
      if k = "id" then readClusterFields rest { c with ID := v }
      else if k = "status" then readClusterFields rest { c with Status := v }
      else readClusterFields rest c

/-- `readCluster` (lines 277–307): timestamps, then definition, then
labels, then the flat top-level fields, mutating the passed-in cluster. -/
def readCluster (bkt : Bucket) (c : Cluster) : Except Err Cluster :=
  match ReadTimestamps bkt c.CreatedAt c.UpdatedAt with
  | .error e => .error e
  | .ok (ca, ua) =>
    match readClusterDefinition bkt with
    | .error e => .error e
    | .ok cdef =>
      .ok (readClusterFields bkt
        { c with CreatedAt := ca, UpdatedAt := ua, Definition := cdef,
                 Labels := readLabels bkt })

/-- The per-group body of `writeClusterDefinition` (lines 402–428): a
freshly created group container filled with the group's labels, its
optional nested peer definition, and the size / instance-type / region
flat fields. -/
def writeGroup (g : ClusterGroup) : Bucket :=
  let b := writeLabels [] g.Labels
  let b :=
    match g.Peer with
    | none => b
    | some p => writePeerDefinition b p
  let b := putVal b "size" (itoa g.Size)
  let b := putVal b "instance_type" g.InstanceType
  let b := putVal b "region" g.Region
  b

/-- The group loop of `writeClusterDefinition`: create a child container
keyed by the decimal string of each position in order. -/
def writeGroupsAux : List ClusterGroup → Nat → Bucket → Bucket
  | [], _, d => d
  | g :: gs, i, d => writeGroupsAux gs (i + 1) (putSub d (itoaNat i) (writeGroup g))

/-- `writeClusterDefinition` (lines 395–432): recreate the "definition"
child container (discarding any prior contents) and write the groups. -/
def writeClusterDefinition (bkt : Bucket) (cdef : ClusterDefinition) : Bucket :=
  putSub bkt "definition" (writeGroupsAux cdef.Groups 0 [])

/-- `writeCluster` (lines 366–393): timestamps, definition, labels, then
the "id" and "status" flat fields. -/
def writeCluster (bkt : Bucket) (c : Cluster) : Bucket :=
  let b := WriteTimestamps bkt c.CreatedAt c.UpdatedAt
  let b := writeClusterDefinition b c.Definition
  let b := writeLabels b c.Labels
  let b := putVal b "id" c.ID
  let b := putVal b "status" c.Status
  b

/-! ## Lifecycle operations (`cluster.go` lines 101–275)

The store state visible to this file is the "clusters" collection
container (absent until first created); every operation runs in one bolt
transaction, which rolls back on error, so each operation returns its
result together with the post-transaction state — equal to the
pre-transaction state whenever the result is an error. -/

/-- The transactional store: the "clusters" root collection container,
absent until `createClustersBucket` first creates it. -/
structure DB where
  clusters : Option Bucket

/-- The zero `Cluster` value a read starts from, with the ID pre-set from
the lookup argument or container key. -/
def emptyCluster (id : String) : Cluster :=
  { ID := id, Status := "", Definition := { Groups := [] }, Labels := [],
    CreatedAt := 0, UpdatedAt := 0 }

/-- `GetCluster` (lines 101–128): read-only transaction; NotFound if the
collection or the entity container is absent. -/
def GetCluster (db : DB) (id : String) : Except Err Cluster :=
  match db.clusters with
  | none => .error .notFound
  | some bkt =>
    match getBucket bkt id with
    | none => .error .notFound
    | some cbkt => readCluster cbkt (emptyCluster id)

/-- The `bkt.ForEach` of `ListClusters`: decode every child container in
iteration order.  (On a flat value in the collection container the Go code
would dereference a `nil` bucket — a crash; such a store is never produced
by this core, and it is modelled as an `incompatibleValue` error.) -/
def listGo : List (String × Entry) → Except Err (List Cluster)
  | [] => .ok []
  | (k, e) :: rest =>
    match e with
    | .val _ => .error .incompatibleValue
    | .sub cbkt =>
      match readCluster cbkt (emptyCluster k) with
      | .error e => .error e
      | .ok c =>
        match listGo rest with
        | .error e => .error e
        | .ok cs => .ok (c :: cs)

/-- `ListClusters` (lines 130–160): an absent collection yields the empty
list, not an error. -/
def ListClusters (db : DB) : Except Err (List Cluster) :=
  match db.clusters with
  | none => .ok []
  | some bkt => listGo bkt

/-- `CreateCluster` (lines 162–191): validate, lazily create the
collection, fail with AlreadyExists if the entity container exists
(`bolt.ErrBucketExists`; a flat value under the identifier key would
instead surface bolt's incompatible-value error unmapped), set both
timestamps to now (ignoring the caller-supplied ones) and write. -/
def CreateCluster (db : DB) (now : Nat) (c : Cluster) : Except Err Cluster × DB :=
  match c.Validate with
  | .error e => (.error e, db)
  | .ok _ =>
    match getEntry (db.clusters.getD []) c.ID with
    | some (.sub _) => (.error .alreadyExists, db)
    | some (.val _) => (.error .incompatibleValue, db)
    | none =>
      (.ok { c with CreatedAt := now, UpdatedAt := now },
       ⟨some (putSub (db.clusters.getD []) c.ID
         (writeCluster [] { c with CreatedAt := now, UpdatedAt := now }))⟩)

/-- `UpdateCluster` (lines 193–217): InvalidArgument on an empty
identifier, NotFound if the entity container is absent, otherwise refresh
the updated-timestamp to now and overwrite. -/
def UpdateCluster (db : DB) (now : Nat) (c : Cluster) : Except Err Cluster × DB :=
  if c.ID = "" then (.error .invalidArgument, db)
  else
    match getBucket (db.clusters.getD []) c.ID with
    | none => (.error .notFound, db)
    | some cbkt =>
      (.ok { c with UpdatedAt := now },
       ⟨some (putSub (db.clusters.getD []) c.ID
         (writeCluster cbkt { c with UpdatedAt := now }))⟩)

/-- Modelled from the spec: the add/remove step of `batchUpdateLabels` —
"read current labels, add requested labels (idempotent — adding an
already-present label is a no-op), remove requested labels (idempotent —
removing an absent label is a no-op)". -/
def applyAddRemove (cur adds removes : List String) : List String :=
  (cur ++ adds.filter (fun a => !cur.contains a)).filter (fun l => !removes.contains l)

/-- Modelled from the spec: the per-identifier loop of
`batchUpdateLabels`, inlining the closure `LabelClusters` passes to it
(lines 227–244): NotFound aborts on the first absent identifier; otherwise
read the entity, apply the label changes, refresh the updated-timestamp
and write back. -/
def labelGo (now : Nat) (adds removes : List String) :
    List String → Bucket → Except Err (Bucket × List Cluster)
  | [], bkt => .ok (bkt, [])
  | id :: rest, bkt =>
    match getBucket bkt id with
    | none => .error .notFound
    | some ibkt =>
      match readCluster ibkt (emptyCluster id) with
      | .error e => .error e
      | .ok c =>
        let c' := { c with Labels := applyAddRemove (readLabels ibkt) adds removes,
                           UpdatedAt := now }
        match labelGo now adds removes rest (putSub bkt id (writeCluster ibkt c')) with
        | .error e => .error e
        | .ok (bkt', cs) => .ok (bkt', c' :: cs)

/-- `LabelClusters` (lines 219–256): one read-write transaction over the
whole batch; the first failure aborts it, leaving the store unchanged. -/
def LabelClusters (db : DB) (now : Nat) (ids adds removes : List String) :
    Except Err (List Cluster) × DB :=
  let bkt := db.clusters.getD []
  match labelGo now adds removes ids bkt with
  | .error e => (.error e, db)
  | .ok (bkt', cs) => (.ok cs, ⟨some bkt'⟩)

/-- `DeleteCluster` (lines 258–275): an absent collection is a no-op
success; `bolt.ErrBucketNotFound` from `DeleteBucket` maps to NotFound (a
flat value under the key would surface bolt's incompatible-value error
unmapped). -/
def DeleteCluster (db : DB) (id : String) : Except Err Unit × DB :=
  match db.clusters with
  | none => (.ok (), db)
  | some bkt =>
    match getEntry bkt id with
    | none => (.error .notFound, db)
    | some (.val _) => (.error .incompatibleValue, db)
    | some (.sub _) => (.ok (), ⟨some (eraseKey bkt id)⟩)

/-- The group a freshly encoded group decodes back to: identical except
that the label list passes through the label container (which collapses
duplicates). -/
def groupRoundtrip (g : ClusterGroup) : ClusterGroup :=
  { g with Labels := readLabels (writeGroup g) }

/-- The entry list produced by the group loop of `writeClusterDefinition`:
one child container per group, keyed by consecutive decimal indices. -/
def groupEntries : List ClusterGroup → Nat → List (String × Entry)
  | [], _ => []
  | g :: gs, i => (itoaNat i, .sub (writeGroup g)) :: groupEntries gs (i + 1)

/-! ## The claimed properties -/

/-- Equality of groups up to reordering of their label sets (§3: label
order is irrelevant, group order is significant). -/
def GroupEquiv (g g' : ClusterGroup) : Prop :=
  g.Size = g'.Size ∧ g.InstanceType = g'.InstanceType ∧ g.Region = g'.Region ∧
    g.Peer = g'.Peer ∧ g.Labels.Perm g'.Labels

/-- Equality of clusters up to reordering of label sets, with group order
preserved exactly. -/
def ClusterEquiv (c c' : Cluster) : Prop :=
  c.ID = c'.ID ∧ c.Status = c'.Status ∧ c.CreatedAt = c'.CreatedAt ∧
    c.UpdatedAt = c'.UpdatedAt ∧ c.Labels.Perm c'.Labels ∧
    List.Forall₂ GroupEquiv c.Definition.Groups c'.Definition.Groups

def sampleCluster : Cluster :=
  { ID := "c1", Status := "created",
    Definition := { Groups := [
      { Size := 3, InstanceType := "m5.large", Region := "us-east-1",
        Peer := some { payload := "peer" }, Labels := ["a", "b"] },
      { Size := 0, InstanceType := "t2", Region := "eu", Peer := none, Labels := [] } ] },
    Labels := ["x", "y"], CreatedAt := 5, UpdatedAt := 9 }

def c3bkt : Bucket := [("definition", Entry.sub [("0", Entry.sub []), ("2", Entry.sub [])])]

def c3dbkt : Bucket := [("0", Entry.sub []), ("2", Entry.sub [])]

def c3cdef : ClusterDefinition :=
  { Groups := [{ Size := 0, InstanceType := "", Region := "", Peer := none, Labels := [] }] }

def c2w : Cluster :=
  { ID := "b", Status := "creating", Definition := { Groups := [] },
    Labels := [], CreatedAt := 0, UpdatedAt := 0 }

def c2res : Cluster := { c2w with CreatedAt := 3, UpdatedAt := 3 }

def c2db : DB := (CreateCluster ⟨none⟩ 3 c2w).2

def c9w : Cluster :=
  { ID := "w", Status := "", Definition := { Groups := [] },
    Labels := [], CreatedAt := 99, UpdatedAt := 4 }

def c9res : Cluster := { c9w with CreatedAt := 7, UpdatedAt := 7 }

def c9db : DB := (CreateCluster ⟨none⟩ 7 c9w).2

def c4bkt : Bucket :=
  [("created_at", Entry.val "5"), ("updated_at", Entry.val "5"),
   ("id", Entry.val "a"), ("status", Entry.val "")]

def c4db : DB := ⟨some [("a", Entry.sub c4bkt)]⟩

def c4in : Cluster :=
  { ID := "a", Status := "", Definition := { Groups := [] }, Labels := [],
    CreatedAt := 999, UpdatedAt := 0 }

def c4res : Cluster := { c4in with UpdatedAt := 7 }

def c4dbAfter : DB := (UpdateCluster c4db 7 c4in).2

def c6bkt : Bucket :=
  [("definition", Entry.sub [("0", Entry.sub [("size", Entry.val "oops")])])]

def c7c : Cluster :=
  { ID := "a", Status := "created", Definition := { Groups := [] },
    Labels := ["x"], CreatedAt := 1, UpdatedAt := 1 }

def c7db : DB := ⟨some [("a", Entry.sub (writeCluster [] c7c))]⟩

def c10db : DB := ⟨some [("k", Entry.sub [("id", Entry.val "other")])]⟩

def c10res : Cluster := { emptyCluster "k" with ID := "other" }

@[simp] theorem getEntry_nil (k : String) : getEntry [] k = none := rfl

@[simp] theorem getEntry_cons (k k' : String) (e : Entry) (rest : Bucket) :
    getEntry ((k', e) :: rest) k = if k' = k then some e else getEntry rest k := by
  by_cases h : k' = k <;> simp [getEntry, List.find?, h]

@[simp] theorem getEntry_putE_self (b : Bucket) (k : String) (e : Entry) :
    getEntry (putE b k e) k = some e := by
  induction b with
  | nil => simp [putE]
  | cons hd tl ih =>
    obtain ⟨k', e'⟩ := hd
    by_cases h : k' = k <;> simp [putE, h, ih]

theorem getEntry_putE_ne (b : Bucket) (k k' : String) (e : Entry) (h : k' ≠ k) :
    getEntry (putE b k e) k' = getEntry b k' := by
  induction b with
  | nil => simp [putE, Ne.symm h]
  | cons hd tl ih =>
    obtain ⟨k0, e0⟩ := hd
    by_cases h0 : k0 = k
    · subst h0
      simp [putE, Ne.symm h]
    · by_cases h1 : k0 = k'
      · subst h1
        simp [putE, h0]
      · simp [putE, h0, h1, ih]

@[simp] theorem getValue_putVal_self (b : Bucket) (k v : String) :
    getValue (putVal b k v) k = some v := by
  simp [getValue, putVal]

theorem getValue_putVal_ne (b : Bucket) (k k' v : String) (h : k' ≠ k) :
    getValue (putVal b k v) k' = getValue b k' := by
  simp [getValue, putVal, getEntry_putE_ne _ _ _ _ h]

@[simp] theorem getBucket_putSub_self (b : Bucket) (k : String) (c : Bucket) :
    getBucket (putSub b k c) k = some c := by
  simp [getBucket, putSub]

theorem getBucket_putSub_ne (b : Bucket) (k k' : String) (c : Bucket) (h : k' ≠ k) :
    getBucket (putSub b k c) k' = getBucket b k' := by
  simp [getBucket, putSub, getEntry_putE_ne _ _ _ _ h]

theorem getValue_putSub_ne (b : Bucket) (k k' : String) (c : Bucket) (h : k' ≠ k) :
    getValue (putSub b k c) k' = getValue b k' := by
  simp [getValue, putSub, getEntry_putE_ne _ _ _ _ h]

theorem getBucket_putVal_ne (b : Bucket) (k k' v : String) (h : k' ≠ k) :
    getBucket (putVal b k v) k' = getBucket b k' := by
  simp [getBucket, putVal, getEntry_putE_ne _ _ _ _ h]

theorem getEntry_eraseKey_ne (b : Bucket) (k k' : String) (h : k' ≠ k) :
    getEntry (eraseKey b k) k' = getEntry b k' := by
  induction b with
  | nil => simp [eraseKey]
  | cons hd tl ih =>
    obtain ⟨k0, e0⟩ := hd
    by_cases h0 : k0 = k
    · subst h0
      simp [eraseKey, Ne.symm h]
    · simp [eraseKey, h0, ih]

/-- `putE` appends when the key is fresh. -/
theorem putE_of_not_mem (b : Bucket) (k : String) (e : Entry) (h : k ∉ keysOf b) :
    putE b k e = b ++ [(k, e)] := by
  induction b with
  | nil => simp [putE]
  | cons hd tl ih =>
    obtain ⟨k0, e0⟩ := hd
    simp only [keysOf, List.map_cons, List.mem_cons] at h
    push_neg at h
    simp [putE, Ne.symm h.1, ih (by simpa [keysOf] using h.2)]

theorem getEntry_eq_none_of_not_mem (b : Bucket) (k : String) (h : k ∉ keysOf b) :
    getEntry b k = none := by
  induction b with
  | nil => rfl
  | cons hd tl ih =>
    obtain ⟨k0, e0⟩ := hd
    simp only [keysOf, List.map_cons, List.mem_cons] at h
    push_neg at h
    simp [getEntry_cons, Ne.symm h.1, ih (by simpa [keysOf] using h.2)]

theorem mem_keys_of_getEntry_some (b : Bucket) (k : String) (e : Entry)
    (h : getEntry b k = some e) : k ∈ keysOf b := by
  by_contra hk
  rw [getEntry_eq_none_of_not_mem b k hk] at h
  exact Option.noConfusion h

theorem digitCh_isDigit (n : Nat) (h : n < 10) : (digitCh n).isDigit = true := by
  interval_cases n <;> decide

theorem digitCh_toNat (n : Nat) (h : n < 10) : (digitCh n).toNat - 48 = n := by
  interval_cases n <;> decide

theorem parseNatAux_append (l₁ l₂ : List Char) (acc : Nat) :
    parseNatAux (l₁ ++ l₂) acc =
      (parseNatAux l₁ acc).bind (fun a => parseNatAux l₂ a) := by
  induction l₁ generalizing acc with
  | nil => simp [parseNatAux]
  | cons c cs ih =>
    by_cases h : c.isDigit <;> simp [parseNatAux, h, ih]

theorem natDigitsRevAux_congr : ∀ (n f1 f2 : Nat), n < f1 → n < f2 →
    natDigitsRevAux n f1 = natDigitsRevAux n f2 := by
  intro n
  induction n using Nat.strong_induction_on with
  | _ n ih =>
    intro f1 f2 h1 h2
    cases f1 with
    | zero => omega
    | succ g1 =>
      cases f2 with
      | zero => omega
      | succ g2 =>
        rw [natDigitsRevAux, natDigitsRevAux]
        by_cases h10 : n < 10
        · rw [if_pos h10, if_pos h10]
        · rw [if_neg h10, if_neg h10]
          congr 1
          exact ih (n / 10) (Nat.div_lt_self (by omega) (by omega)) g1 g2
            (by omega) (by omega)

theorem natDigitsRev_eq (n : Nat) :
    natDigitsRev n =
      if n < 10 then [digitCh n] else digitCh (n % 10) :: natDigitsRev (n / 10) := by
  unfold natDigitsRev
  rw [natDigitsRevAux]
  by_cases h10 : n < 10
  · rw [if_pos h10, if_pos h10]
  · rw [if_neg h10, if_neg h10]
    congr 1
    exact natDigitsRevAux_congr (n / 10) n (n / 10 + 1) (by omega) (by omega)

theorem natDigitsRev_ne_nil (n : Nat) : natDigitsRev n ≠ [] := by
  rw [natDigitsRev_eq]
  split <;> simp

theorem mem_natDigitsRev_isDigit (n : Nat) (c : Char) (h : c ∈ natDigitsRev n) :
    c.isDigit = true := by
  induction n using Nat.strong_induction_on with
  | _ n ih =>
    rw [natDigitsRev_eq] at h
    split at h
    · next h10 =>
      simp only [List.mem_singleton] at h
      subst h
      exact digitCh_isDigit n h10
    · next h10 =>
      rcases List.mem_cons.mp h with h' | h'
      · subst h'
        exact digitCh_isDigit _ (Nat.mod_lt _ (by omega))
      · exact ih (n / 10) (Nat.div_lt_self (by omega) (by omega)) h'

theorem parseNatAux_natDigitsRev (n : Nat) :
    ∀ acc, parseNatAux (natDigitsRev n).reverse acc =
      some (acc * 10 ^ (natDigitsRev n).length + n) := by
  induction n using Nat.strong_induction_on with
  | _ n ih =>
    intro acc
    by_cases h10 : n < 10
    · have hstep : natDigitsRev n = [digitCh n] := by
        rw [natDigitsRev_eq]; simp [h10]
      rw [hstep]
      simp [parseNatAux, digitCh_isDigit n h10, digitCh_toNat n h10]
    · have hstep : natDigitsRev n = digitCh (n % 10) :: natDigitsRev (n / 10) := by
        rw [natDigitsRev_eq]; simp [h10]
      have hlt : n / 10 < n := Nat.div_lt_self (by omega) (by omega)
      have hm : n % 10 < 10 := Nat.mod_lt _ (by omega)
      rw [hstep, List.reverse_cons, parseNatAux_append, ih (n / 10) hlt acc]
      simp only [Option.some_bind, parseNatAux, digitCh_isDigit _ hm,
        if_true, digitCh_toNat _ hm, List.length_cons, List.length_reverse]
      rw [pow_succ, ← Nat.mul_assoc]
      congr 1
      omega

theorem parseNat?_itoaNat (n : Nat) : parseNat? (itoaNat n) = some n := by
  have hne : (natDigitsRev n).reverse ≠ [] := by
    simpa using natDigitsRev_ne_nil n
  have h := parseNatAux_natDigitsRev n 0
  simp only [Nat.zero_mul, Nat.zero_add] at h
  unfold parseNat? itoaNat
  cases hrev : (natDigitsRev n).reverse with
  | nil => exact absurd hrev hne
  | cons c cs =>
    rw [hrev] at h
    simpa [String.toList] using h

theorem itoaNat_injective : Function.Injective itoaNat := by
  intro a b h
  have ha := parseNat?_itoaNat a
  have hb := parseNat?_itoaNat b
  rw [h, hb] at ha
  exact (Option.some_injective _ ha).symm

/-- The decimal text of a natural number starts with a digit. -/
theorem itoaNat_toList (n : Nat) :
    ∃ c cs, (itoaNat n).toList = c :: cs ∧ c.isDigit = true ∧
      (c :: cs : List Char) = (natDigitsRev n).reverse := by
  have hne : (natDigitsRev n).reverse ≠ [] := by
    simpa using natDigitsRev_ne_nil n
  cases hrev : (natDigitsRev n).reverse with
  | nil => exact absurd hrev hne
  | cons c cs =>
    refine ⟨c, cs, by simp [itoaNat, String.toList, hrev], ?_, rfl⟩
    exact mem_natDigitsRev_isDigit n c
      (by rw [← List.mem_reverse, hrev]; exact List.mem_cons_self _ _)

theorem atoi_itoa (n : Int) : atoi (itoa n) = .ok n := by
  by_cases hneg : n < 0
  · have habs : ((n.natAbs : Int)) = -n := by omega
    obtain ⟨c, cs, htl, hdig, heq⟩ := itoaNat_toList n.natAbs
    have hparse := parseNat?_itoaNat n.natAbs
    rw [parseNat?] at hparse
    unfold itoa
    rw [if_pos hneg]
    have htoList : ("-" ++ itoaNat n.natAbs).toList = '-' :: (itoaNat n.natAbs).toList := rfl
    unfold atoi
    rw [htoList, htl]
    simp only [reduceIte]
    rw [htl] at hparse
    simp only at hparse
    rw [hparse]
    have hval : ((n.natAbs : Nat) : Int) = -n := by omega
    simp [hval]
  · obtain ⟨c, cs, htl, hdig, heq⟩ := itoaNat_toList n.toNat
    have hparse := parseNat?_itoaNat n.toNat
    rw [parseNat?] at hparse
    rw [htl] at hparse
    simp only at hparse
    have hcm : c ≠ '-' := by
      intro hc; rw [hc] at hdig; exact absurd hdig (by decide)
    have hcp : c ≠ '+' := by
      intro hc; rw [hc] at hdig; exact absurd hdig (by decide)
    have hval : ((n.toNat : Nat) : Int) = n := by omega
    unfold itoa
    rw [if_neg hneg]
    unfold atoi
    rw [htl]
    simp only [hcm, hcp, if_false, hparse, hval]

/-! ## Codec round-trip lemmas -/

theorem labelsBucket_aux (ls : List String) :
    ∀ acc : Bucket, ls.Nodup → (∀ l ∈ ls, l ∉ keysOf acc) →
      ls.foldl (fun l lab => putVal l lab "") acc =
        acc ++ ls.map (fun l => (l, Entry.val "")) := by
  induction ls with
  | nil => intro acc _ _; simp
  | cons hd tl ih =>
    intro acc hnd hacc
    have h1 : hd ∉ keysOf acc := hacc hd (List.mem_cons_self _ _)
    have hput : putVal acc hd "" = acc ++ [(hd, Entry.val "")] :=
      putE_of_not_mem acc hd (Entry.val "") h1
    have h2 : ∀ l ∈ tl, l ∉ keysOf (putVal acc hd "") := by
      intro l hl
      rw [hput]
      simp only [keysOf, List.map_append, List.mem_append, List.map_cons,
        List.map_nil, List.mem_singleton]
      push_neg
      exact ⟨hacc l (List.mem_cons_of_mem _ hl),
        fun hle => (List.nodup_cons.mp hnd).1 (hle ▸ hl)⟩
    rw [List.foldl_cons, ih (putVal acc hd "") (List.nodup_cons.mp hnd).2 h2, hput]
    simp

/-- With no duplicate labels, the label container's entries are exactly
one field per label, in order. -/
theorem labelsBucket_eq_map (ls : List String) (h : ls.Nodup) :
    labelsBucket ls = ls.map (fun l => (l, Entry.val "")) := by
  simpa [labelsBucket] using labelsBucket_aux ls [] h (by simp [keysOf])

theorem filterMap_labels (ls : List String) :
    (ls.map (fun l => (l, Entry.val ""))).filterMap
      (fun e => match e.2 with | .val _ => some e.1 | .sub _ => none) = ls := by
  induction ls with
  | nil => rfl
  | cons hd tl ih => simp [ih]

/-- Reading back a label container written with no duplicates recovers
the labels exactly. -/
theorem readLabels_writeLabels (bkt : Bucket) (ls : List String) (h : ls.Nodup)
    (hget : getBucket bkt "labels" = some (labelsBucket ls)) :
    readLabels bkt = ls := by
  simp only [readLabels, hget, labelsBucket_eq_map ls h]
  exact filterMap_labels ls

theorem readGroup_writeGroup_total (g : ClusterGroup) :
    readGroup (writeGroup g) = .ok (groupRoundtrip g) := by
  obtain ⟨s, it, r, p, ls⟩ := g
  cases p with
  | none =>
    simp [readGroup, groupRoundtrip, readGroupFields, atoi_itoa, getBucket, getEntry,
      List.find?, entryText]
  | some pd =>
    simp [readGroup, groupRoundtrip, readGroupFields, atoi_itoa, getBucket, getEntry,
      List.find?, readPeerDefinition, getValue, entryText]

theorem groupRoundtrip_eq_self (g : ClusterGroup) (h : g.Labels.Nodup) :
    groupRoundtrip g = g := by
  obtain ⟨s, it, r, p, ls⟩ := g
  simp only at h
  have hlab : readLabels (writeGroup ⟨s, it, r, p, ls⟩) = ls :=
    readLabels_writeLabels _ ls h (by cases p <;> rfl)
  simp [groupRoundtrip, hlab]

/-- Decoding a freshly encoded group recovers it exactly when its labels
have no duplicates. -/
theorem readGroup_writeGroup (g : ClusterGroup) (h : g.Labels.Nodup) :
    readGroup (writeGroup g) = .ok g := by
  rw [readGroup_writeGroup_total, groupRoundtrip_eq_self g h]

theorem writeGroupsAux_eq (gs : List ClusterGroup) :
    ∀ (i : Nat) (d : Bucket), (∀ j, i ≤ j → itoaNat j ∉ keysOf d) →
      writeGroupsAux gs i d = d ++ groupEntries gs i := by
  induction gs with
  | nil => intro i d _; simp [writeGroupsAux, groupEntries]
  | cons g gs ih =>
    intro i d hd
    have hput : putSub d (itoaNat i) (writeGroup g) = d ++ [(itoaNat i, .sub (writeGroup g))] :=
      putE_of_not_mem d _ _ (hd i le_rfl)
    have hd' : ∀ j, i + 1 ≤ j → itoaNat j ∉ keysOf (putSub d (itoaNat i) (writeGroup g)) := by
      intro j hj
      rw [hput]
      simp only [keysOf, List.map_append, List.mem_append, List.map_cons, List.map_nil,
        List.mem_singleton]
      push_neg
      refine ⟨hd j (by omega), fun he => ?_⟩
      have := itoaNat_injective he
      omega
    rw [writeGroupsAux, ih (i + 1) _ hd', hput, groupEntries]
    simp

theorem writeGroupsAux_nil (gs : List ClusterGroup) :
    writeGroupsAux gs 0 [] = groupEntries gs 0 := by
  simpa using writeGroupsAux_eq gs 0 [] (by simp [keysOf])

theorem groupEntries_length (gs : List ClusterGroup) :
    ∀ i, (groupEntries gs i).length = gs.length := by
  induction gs with
  | nil => intro i; rfl
  | cons g gs ih => intro i; simp [groupEntries, ih]

theorem getEntry_groupEntries (gs : List ClusterGroup) :
    ∀ i j, getEntry (groupEntries gs i) (itoaNat (i + j)) =
      if h : j < gs.length then some (.sub (writeGroup (gs.get ⟨j, h⟩))) else none := by
  induction gs with
  | nil => intro i j; simp [groupEntries]
  | cons g gs ih =>
    intro i j
    cases j with
    | zero =>
      simp [groupEntries, getEntry_cons]
    | succ k =>
      have hne : itoaNat i ≠ itoaNat (i + (k + 1)) := by
        intro he
        have := itoaNat_injective he
        omega
      have harg : i + (k + 1) = (i + 1) + k := by omega
      rw [groupEntries, getEntry_cons, if_neg hne, harg, ih (i + 1) k]
      by_cases hk : k < gs.length
      · rw [dif_pos hk, dif_pos (by simpa using Nat.succ_lt_succ hk)]
        rfl
      · rw [dif_neg hk, dif_neg (by simpa using fun hh => hk (Nat.lt_of_succ_lt_succ hh))]

/-- Decoding the probe loop over a freshly written dense run of groups
recovers the groups in order (each one up to label-duplicate collapse). -/
theorem readGroups_spec (gs : List ClusterGroup) :
    ∀ (dbkt : Bucket) (i fuel : Nat), gs.length < fuel →
      (∀ j (h : j < gs.length),
        getBucket dbkt (itoaNat (i + j)) = some (writeGroup (gs.get ⟨j, h⟩))) →
      getBucket dbkt (itoaNat (i + gs.length)) = none →
      readGroups dbkt i fuel = .ok (gs.map groupRoundtrip) := by
  induction gs with
  | nil =>
    intro dbkt i fuel hfuel _ hend
    cases fuel with
    | zero => omega
    | succ f =>
      simp only [List.length_nil, Nat.add_zero] at hend
      simp [readGroups, hend]
  | cons g gs ih =>
    intro dbkt i fuel hfuel hget hend
    cases fuel with
    | zero => omega
    | succ f =>
      have h0 : getBucket dbkt (itoaNat i) = some (writeGroup g) := by
        have := hget 0 (by simp)
        simpa using this
      have hg : readGroup (writeGroup g) = .ok (groupRoundtrip g) :=
        readGroup_writeGroup_total g
      have hrest : readGroups dbkt (i + 1) f = .ok (gs.map groupRoundtrip) := by
        refine ih dbkt (i + 1) f (by simpa using Nat.lt_of_succ_lt_succ hfuel) ?_ ?_
        · intro j hj
          have harg : (i + 1) + j = i + (j + 1) := by omega
          rw [harg, hget (j + 1) (by simpa using Nat.succ_lt_succ hj)]
          rfl
        · have harg : (i + 1) + gs.length = i + (g :: gs).length := by simp; omega
          rw [harg]
          exact hend
      simp [readGroups, h0, hg, hrest]

/-! Field access into a written entity container (over an arbitrary base
bucket: on update the entity container already has contents). -/

theorem getValue_writeCluster_created (b : Bucket) (c : Cluster) :
    getValue (writeCluster b c) "created_at" = some (itoaNat c.CreatedAt) := by
  unfold writeCluster writeClusterDefinition writeLabels WriteTimestamps
  rw [getValue_putVal_ne _ _ _ _ (by decide), getValue_putVal_ne _ _ _ _ (by decide),
    getValue_putSub_ne _ _ _ _ (by decide), getValue_putSub_ne _ _ _ _ (by decide),
    getValue_putVal_ne _ _ _ _ (by decide), getValue_putVal_self]

theorem getValue_writeCluster_updated (b : Bucket) (c : Cluster) :
    getValue (writeCluster b c) "updated_at" = some (itoaNat c.UpdatedAt) := by
  unfold writeCluster writeClusterDefinition writeLabels WriteTimestamps
  rw [getValue_putVal_ne _ _ _ _ (by decide), getValue_putVal_ne _ _ _ _ (by decide),
    getValue_putSub_ne _ _ _ _ (by decide), getValue_putSub_ne _ _ _ _ (by decide),
    getValue_putVal_self]

theorem getValue_writeCluster_id (b : Bucket) (c : Cluster) :
    getValue (writeCluster b c) "id" = some c.ID := by
  unfold writeCluster writeClusterDefinition writeLabels WriteTimestamps
  rw [getValue_putVal_ne _ _ _ _ (by decide), getValue_putVal_self]

theorem getValue_writeCluster_status (b : Bucket) (c : Cluster) :
    getValue (writeCluster b c) "status" = some c.Status := by
  unfold writeCluster writeClusterDefinition writeLabels WriteTimestamps
  rw [getValue_putVal_self]

theorem getBucket_writeCluster_definition (b : Bucket) (c : Cluster) :
    getBucket (writeCluster b c) "definition" =
      some (writeGroupsAux c.Definition.Groups 0 []) := by
  unfold writeCluster writeClusterDefinition writeLabels WriteTimestamps
  rw [getBucket_putVal_ne _ _ _ _ (by decide), getBucket_putVal_ne _ _ _ _ (by decide),
    getBucket_putSub_ne _ _ _ _ (by decide), getBucket_putSub_self]

theorem getBucket_writeCluster_labels (b : Bucket) (c : Cluster) :
    getBucket (writeCluster b c) "labels" = some (labelsBucket c.Labels) := by
  unfold writeCluster writeClusterDefinition writeLabels WriteTimestamps
  rw [getBucket_putVal_ne _ _ _ _ (by decide), getBucket_putVal_ne _ _ _ _ (by decide),
    getBucket_putSub_self]

theorem ReadTimestamps_writeCluster (b : Bucket) (c : Cluster) (x y : Nat) :
    ReadTimestamps (writeCluster b c) x y = .ok (c.CreatedAt, c.UpdatedAt) := by
  simp [ReadTimestamps, readTimeField, getValue_writeCluster_created,
    getValue_writeCluster_updated, parseNat?_itoaNat]

theorem getBucket_groupEntries (gs : List ClusterGroup) (i j : Nat) :
    getBucket (groupEntries gs i) (itoaNat (i + j)) =
      if h : j < gs.length then some (writeGroup (gs.get ⟨j, h⟩)) else none := by
  by_cases h : j < gs.length
  · simp [getBucket, getEntry_groupEntries gs i j, h]
  · simp [getBucket, getEntry_groupEntries gs i j, h]

theorem readClusterDefinition_writeCluster (b : Bucket) (c : Cluster) :
    readClusterDefinition (writeCluster b c) =
      .ok { Groups := c.Definition.Groups.map groupRoundtrip } := by
  have hread : readGroups (groupEntries c.Definition.Groups 0) 0
      (c.Definition.Groups.length + 1) = .ok (c.Definition.Groups.map groupRoundtrip) := by
    refine readGroups_spec _ _ _ _ (Nat.lt_succ_self _) ?_ ?_
    · intro j hj
      have h := getBucket_groupEntries c.Definition.Groups 0 j
      rw [dif_pos hj] at h
      exact h
    · have h := getBucket_groupEntries c.Definition.Groups 0 c.Definition.Groups.length
      rw [dif_neg (lt_irrefl _)] at h
      exact h
  simp [readClusterDefinition, getBucket_writeCluster_definition, writeGroupsAux_nil,
    groupEntries_length, hread]

/-- Decoding always succeeds on a container an encode just wrote,
whatever was in the container before (updates overwrite in place). -/
theorem readCluster_writeCluster_ok (b : Bucket) (c c₀ : Cluster) :
    ∃ c', readCluster (writeCluster b c) c₀ = .ok c' := by
  rw [readCluster, ReadTimestamps_writeCluster, readClusterDefinition_writeCluster]
  exact ⟨_, rfl⟩

theorem readClusterFields_writeCluster_empty (c c' : Cluster) :
    readClusterFields (writeCluster [] c) c' = { c' with ID := c.ID, Status := c.Status } := by
  have hW : writeCluster [] c =
      [("created_at", .val (itoaNat c.CreatedAt)), ("updated_at", .val (itoaNat c.UpdatedAt)),
       ("definition", .sub (writeGroupsAux c.Definition.Groups 0 [])),
       ("labels", .sub (labelsBucket c.Labels)),
       ("id", .val c.ID), ("status", .val c.Status)] := rfl
  rw [hW]
  simp [readClusterFields]

theorem map_groupRoundtrip_eq_self (gs : List ClusterGroup)
    (h : ∀ g ∈ gs, g.Labels.Nodup) : gs.map groupRoundtrip = gs := by
  induction gs with
  | nil => rfl
  | cons g gs ih =>
    rw [List.map_cons, groupRoundtrip_eq_self g (h g (List.mem_cons_self _ _)),
      ih (fun x hx => h x (List.mem_cons_of_mem _ hx))]

/-- Writing a valid cluster into a fresh container and reading it back
recovers it exactly. -/
theorem readCluster_writeCluster_empty (c c₀ : Cluster) (h1 : c.Labels.Nodup)
    (h2 : ∀ g ∈ c.Definition.Groups, g.Labels.Nodup) :
    readCluster (writeCluster [] c) c₀ = .ok c := by
  have hlabs : readLabels (writeCluster [] c) = c.Labels :=
    readLabels_writeLabels _ _ h1 (getBucket_writeCluster_labels [] c)
  rw [readCluster, ReadTimestamps_writeCluster, readClusterDefinition_writeCluster]
  simp only [readClusterFields_writeCluster_empty, hlabs,
    map_groupRoundtrip_eq_self c.Definition.Groups h2]

/-! Error classification: every failure of the decode path is a parse
failure, i.e. a `FormatError`. -/

theorem atoi_classify (s : String) :
    (∃ n, atoi s = .ok n) ∨ atoi s = .error .formatError := by
  unfold atoi
  repeat' split
  all_goals first | exact Or.inr rfl | exact Or.inl ⟨_, rfl⟩

theorem atoi_error (s : String) (e : Err) (h : atoi s = .error e) : e = .formatError := by
  rcases atoi_classify s with ⟨n, hn⟩ | hn
  · rw [hn] at h
    exact Except.noConfusion h
  · rw [hn] at h
    injection h with h
    exact h.symm

theorem readTimeField_error (bkt : Bucket) (key : String) (d : Nat) (e : Err)
    (h : readTimeField bkt key d = .error e) : e = .formatError := by
  unfold readTimeField at h
  split at h
  · exact Except.noConfusion h
  · split at h
    · injection h with h
      exact h.symm
    · exact Except.noConfusion h

theorem ReadTimestamps_error (bkt : Bucket) (x y : Nat) (e : Err)
    (h : ReadTimestamps bkt x y = .error e) : e = .formatError := by
  unfold ReadTimestamps at h
  split at h
  · next e' heq =>
    injection h with h
    exact h ▸ readTimeField_error _ _ _ _ heq
  · split at h
    · next e' heq =>
      injection h with h
      exact h ▸ readTimeField_error _ _ _ _ heq
    · exact Except.noConfusion h

theorem readGroupFields_error (l : List (String × Entry)) :
    ∀ (g : ClusterGroup) (e : Err), readGroupFields l g = .error e → e = .formatError := by
  induction l with
  | nil => intro g e h; exact Except.noConfusion h
  | cons hd tl ih =>
    intro g e h
    obtain ⟨k, ent⟩ := hd
    rw [readGroupFields] at h
    split at h
    · split at h
      · next e' heq =>
        cases h
        exact atoi_error _ _ heq
      · exact ih _ _ h
    · split at h
      · exact ih _ _ h
      · split at h
        · exact ih _ _ h
        · exact ih _ _ h

theorem readGroup_error (gbkt : Bucket) (e : Err) (h : readGroup gbkt = .error e) :
    e = .formatError :=
  readGroupFields_error gbkt _ e h

theorem readGroups_error (dbkt : Bucket) :
    ∀ (fuel i : Nat) (e : Err), readGroups dbkt i fuel = .error e → e = .formatError := by
  intro fuel
  induction fuel with
  | zero => intro i e h; exact Except.noConfusion h
  | succ f ih =>
    intro i e h
    rw [readGroups] at h
    split at h
    · exact Except.noConfusion h
    · split at h
      · next e' heq =>
        cases h
        exact readGroup_error _ _ heq
      · split at h
        · next e' heq =>
          cases h
          exact ih _ _ heq
        · exact Except.noConfusion h

theorem readClusterDefinition_error (bkt : Bucket) (e : Err)
    (h : readClusterDefinition bkt = .error e) : e = .formatError := by
  unfold readClusterDefinition at h
  split at h
  · exact Except.noConfusion h
  · split at h
    · next e' heq =>
      cases h
      exact readGroups_error _ _ _ _ heq
    · exact Except.noConfusion h

theorem readCluster_error (bkt : Bucket) (c : Cluster) (e : Err)
    (h : readCluster bkt c = .error e) : e = .formatError := by
  unfold readCluster at h
  split at h
  · next heq =>
    cases h
    exact ReadTimestamps_error _ _ _ _ heq
  · split at h
    · next e' heq =>
      cases h
      exact readClusterDefinition_error _ _ heq
    · exact Except.noConfusion h

/-! Structural decode lemmas. -/

/-- The flat-field fold of a group never changes the `Peer` field. -/
theorem readGroupFields_peer (l : List (String × Entry)) :
    ∀ (g g' : ClusterGroup), readGroupFields l g = .ok g' → g'.Peer = g.Peer := by
  induction l with
  | nil =>
    intro g g' h
    injection h with h
    rw [← h]
  | cons hd tl ih =>
    intro g g' h
    obtain ⟨k, ent⟩ := hd
    rw [readGroupFields] at h
    split at h
    · split at h
      · exact Except.noConfusion h
      · simpa using ih _ _ h
    · split at h
      · simpa using ih _ _ h
      · split at h
        · simpa using ih _ _ h
        · exact ih _ _ h

/-- A group whose container has no nested "definition" child decodes with
an absent peer. -/
theorem readGroup_peer_none (gbkt : Bucket) (g' : ClusterGroup)
    (hdef : getBucket gbkt "definition" = none) (h : readGroup gbkt = .ok g') :
    g'.Peer = none := by
  unfold readGroup at h
  rw [hdef] at h
  exact readGroupFields_peer _ _ _ h

/-- Whatever the probe loop returns, it never returns more groups than
the index of any missing probe. -/
theorem readGroups_length_le (dbkt : Bucket) :
    ∀ (fuel i : Nat) (gs : List ClusterGroup) (n : Nat),
      readGroups dbkt i fuel = .ok gs →
      getBucket dbkt (itoaNat (i + n)) = none → gs.length ≤ n := by
  intro fuel
  induction fuel with
  | zero =>
    intro i gs n h _
    injection h with h
    simp [← h]
  | succ f ih =>
    intro i gs n h hmiss
    rw [readGroups] at h
    split at h
    · injection h with h
      simp [← h]
    · next gbkt hprobe =>
      split at h
      · exact Except.noConfusion h
      · split at h
        · exact Except.noConfusion h
        · next rest hrest =>
          injection h with h
          cases n with
          | zero =>
            rw [Nat.add_zero] at hmiss
            rw [hmiss] at hprobe
            exact Option.noConfusion hprobe
          | succ m =>
            have harg : i + (m + 1) = (i + 1) + m := by omega
            rw [harg] at hmiss
            have := ih (i + 1) rest m hrest hmiss
            rw [← h]
            simpa using this

/-- Each returned group comes from the container at its own probe index. -/
theorem readGroups_nth (dbkt : Bucket) :
    ∀ (fuel i : Nat) (gs : List ClusterGroup), readGroups dbkt i fuel = .ok gs →
      ∀ j (hj : j < gs.length), ∃ gbkt, getBucket dbkt (itoaNat (i + j)) = some gbkt ∧
        readGroup gbkt = .ok (gs.get ⟨j, hj⟩) := by
  intro fuel
  induction fuel with
  | zero =>
    intro i gs h j hj
    injection h with h
    subst h
    exact absurd hj (by simp)
  | succ f ih =>
    intro i gs h j hj
    rw [readGroups] at h
    split at h
    · injection h with h
      subst h
      exact absurd hj (by simp)
    · next gbkt hprobe =>
      split at h
      · exact Except.noConfusion h
      · next g hg =>
        split at h
        · exact Except.noConfusion h
        · next rest hrest =>
          injection h with h
          subst h
          cases j with
          | zero => exact ⟨gbkt, by simpa using hprobe, by simpa using hg⟩
          | succ m =>
            have harg : i + (m + 1) = (i + 1) + m := by omega
            rw [harg]
            exact ih (i + 1) rest hrest m (by simpa using Nat.lt_of_succ_lt_succ hj)

/-- Pigeonhole: a container with present child buckets at every decimal
index `0..m` has more than `m` entries, so the probe fuel
`dbkt.length + 1` is never exhausted before the first missing index. -/
theorem present_indices_bound (dbkt : Bucket) (m : Nat)
    (h : ∀ j, j ≤ m → (getBucket dbkt (itoaNat j)).isSome) : m < dbkt.length := by
  have hsub : (List.range (m + 1)).map itoaNat ⊆ keysOf dbkt := by
    intro k hk
    rw [List.mem_map] at hk
    obtain ⟨j, hj, rfl⟩ := hk
    rw [List.mem_range] at hj
    have hs := h j (by omega)
    rw [Option.isSome_iff_exists] at hs
    obtain ⟨es, hes⟩ := hs
    unfold getBucket at hes
    rcases hg : getEntry dbkt (itoaNat j) with _ | e
    · rw [hg] at hes
      exact Option.noConfusion hes
    · exact mem_keys_of_getEntry_some _ _ _ hg
  have hnd : ((List.range (m + 1)).map itoaNat).Nodup :=
    (List.nodup_range _).map itoaNat_injective
  have hle := (hnd.subperm hsub).length_le
  have hlen : ((List.range (m + 1)).map itoaNat).length = m + 1 := by simp
  have hkeys : (keysOf dbkt).length = dbkt.length := by simp [keysOf]
  omega

/-- If the probe loop succeeded and probes `0..j` relative to `i` are all
present, then decoding the container at relative index `j` succeeded. -/
theorem readGroups_ok_probe (dbkt : Bucket) :
    ∀ (fuel i : Nat) (gs : List ClusterGroup), readGroups dbkt i fuel = .ok gs →
      ∀ j, j < fuel → (∀ t, t ≤ j → (getBucket dbkt (itoaNat (i + t))).isSome) →
      ∀ gb, getBucket dbkt (itoaNat (i + j)) = some gb → ∃ g, readGroup gb = .ok g := by
  intro fuel
  induction fuel with
  | zero =>
    intro i gs _ j hj
    omega
  | succ f ih =>
    intro i gs h j hj hpres gb hgb
    rw [readGroups] at h
    split at h
    · next hnone =>
      have := hpres 0 (by omega)
      rw [Nat.add_zero] at this
      rw [hnone] at this
      simp at this
    · next gbkt hprobe =>
      split at h
      · exact Except.noConfusion h
      · next g hg =>
        split at h
        · exact Except.noConfusion h
        · next rest hrest =>
          cases j with
          | zero =>
            rw [Nat.add_zero] at hgb
            rw [hprobe] at hgb
            injection hgb with hgb
            exact ⟨g, hgb ▸ hg⟩
          | succ m =>
            have harg : i + (m + 1) = (i + 1) + m := by omega
            rw [harg] at hgb
            refine ih (i + 1) rest hrest m (by omega) ?_ gb hgb
            intro t ht
            have harg2 : (i + 1) + t = i + (t + 1) := by omega
            rw [harg2]
            exact hpres (t + 1) (by omega)

/-- Every "size" flat field a successful group-field fold passed over
parsed as an integer. -/
theorem readGroupFields_size_ok (l : List (String × Entry)) :
    ∀ (g g' : ClusterGroup) (s : String), readGroupFields l g = .ok g' →
      ("size", Entry.val s) ∈ l → ∃ n, atoi s = .ok n := by
  induction l with
  | nil =>
    intro g g' s _ hmem
    exact absurd hmem (List.not_mem_nil _)
  | cons hd tl ih =>
    intro g g' s h hmem
    obtain ⟨k, ent⟩ := hd
    rw [readGroupFields] at h
    rcases List.mem_cons.mp hmem with heq | hmem'
    · injection heq with hk hent
      subst hk
      subst hent
      split at h
      · split at h
        · exact Except.noConfusion h
        · next n hn => exact ⟨n, by simpa [entryText] using hn⟩
      · next hk' => exact absurd rfl hk'
    · split at h
      · split at h
        · exact Except.noConfusion h
        · exact ih _ _ _ h hmem'
      · split at h
        · exact ih _ _ _ h hmem'
        · split at h
          · exact ih _ _ _ h hmem'
          · exact ih _ _ _ h hmem'

/-- An entry found by lookup is an entry of the container. -/
theorem mem_of_getEntry_some (b : Bucket) (k : String) (e : Entry)
    (h : getEntry b k = some e) : (k, e) ∈ b := by
  induction b with
  | nil => exact Option.noConfusion h
  | cons hd tl ih =>
    obtain ⟨k0, e0⟩ := hd
    rw [getEntry_cons] at h
    by_cases hk : k0 = k
    · rw [if_pos hk] at h
      injection h with h
      subst hk
      subst h
      exact List.mem_cons_self _ _
    · rw [if_neg hk] at h
      exact List.mem_cons_of_mem _ (ih h)

/-- A flat field found by `Get` is an entry of the container. -/
theorem mem_of_getValue_some (b : Bucket) (k s : String) (h : getValue b k = some s) :
    (k, Entry.val s) ∈ b := by
  unfold getValue at h
  split at h
  · next v hv =>
    injection h with h
    subst h
    exact mem_of_getEntry_some b k _ hv
  · exact Option.noConfusion h

theorem getEntry_of_getValue (b : Bucket) (k s : String) (h : getValue b k = some s) :
    getEntry b k = some (Entry.val s) := by
  unfold getValue at h
  split at h
  · next v hv =>
    injection h with h
    subst h
    exact hv
  · exact Option.noConfusion h

/-- Deleting a key from a container with unique keys removes it. -/
theorem getEntry_eraseKey_self (b : Bucket) (k : String) (hnd : (keysOf b).Nodup) :
    getEntry (eraseKey b k) k = none := by
  induction b with
  | nil => rfl
  | cons hd tl ih =>
    obtain ⟨k0, e0⟩ := hd
    simp only [keysOf, List.map_cons, List.nodup_cons] at hnd
    by_cases hk : k0 = k
    · subst hk
      rw [eraseKey, if_pos rfl]
      exact getEntry_eq_none_of_not_mem tl k0 hnd.1
    · rw [eraseKey, if_neg hk, getEntry_cons, if_neg hk]
      exact ih hnd.2

/-- If the container's keys are unique and an "id" flat field is present,
the final field fold sets the cluster identifier to its value. -/
theorem readClusterFields_ID (l : List (String × Entry)) :
    ∀ (c : Cluster), getEntry l "id" = none →
      (readClusterFields l c).ID = c.ID := by
  induction l with
  | nil => intro c _; rfl
  | cons hd tl ih =>
    intro c h
    obtain ⟨k, e⟩ := hd
    rw [getEntry_cons] at h
    by_cases hk : k = "id"
    · rw [if_pos hk] at h
      exact Option.noConfusion h
    · rw [if_neg hk] at h
      rcases e with v | es
      · have hred : readClusterFields ((k, Entry.val v) :: tl) c =
            if k = "id" then readClusterFields tl { c with ID := v }
            else if k = "status" then readClusterFields tl { c with Status := v }
            else readClusterFields tl c := rfl
        rw [hred, if_neg hk]
        by_cases hst : k = "status"
        · rw [if_pos hst]
          exact ih _ h
        · rw [if_neg hst]
          exact ih _ h
      · have hred : readClusterFields ((k, Entry.sub es) :: tl) c =
            readClusterFields tl c := rfl
        rw [hred]
        exact ih _ h

theorem readClusterFields_ID_some (l : List (String × Entry)) :
    ∀ (c : Cluster) (s : String), (l.map Prod.fst).Nodup →
      getEntry l "id" = some (Entry.val s) → (readClusterFields l c).ID = s := by
  induction l with
  | nil => intro c s _ h; exact Option.noConfusion h
  | cons hd tl ih =>
    intro c s hnd h
    obtain ⟨k, e⟩ := hd
    simp only [List.map_cons, List.nodup_cons] at hnd
    rw [getEntry_cons] at h
    by_cases hk : k = "id"
    · rw [if_pos hk] at h
      injection h with h
      subst hk
      subst h
      have hred : readClusterFields (("id", Entry.val s) :: tl) c =
          readClusterFields tl { c with ID := s } := rfl
      rw [hred]
      exact readClusterFields_ID tl _
        (getEntry_eq_none_of_not_mem tl "id" (by simpa [keysOf] using hnd.1))
    · rw [if_neg hk] at h
      rcases e with v | es
      · have hred : readClusterFields ((k, Entry.val v) :: tl) c =
            if k = "id" then readClusterFields tl { c with ID := v }
            else if k = "status" then readClusterFields tl { c with Status := v }
            else readClusterFields tl c := rfl
        rw [hred, if_neg hk]
        by_cases hst : k = "status"
        · rw [if_pos hst]
          exact ih _ s hnd.2 h
        · rw [if_neg hst]
          exact ih _ s hnd.2 h
      · have hred : readClusterFields ((k, Entry.sub es) :: tl) c =
            readClusterFields tl c := rfl
        rw [hred]
        exact ih _ s hnd.2 h

/-- Inverting a successful decode: the result is the field fold applied to
the in-progress cluster. -/
theorem readCluster_ok_inv (bkt : Bucket) (c₀ c : Cluster)
    (h : readCluster bkt c₀ = .ok c) :
    ∃ c₁, c = readClusterFields bkt c₁ := by
  unfold readCluster at h
  split at h
  · exact Except.noConfusion h
  · split at h
    · exact Except.noConfusion h
    · injection h with h
      exact ⟨_, h.symm⟩

/-- The decoder overwrites the pre-set identifier with the stored "id"
flat field whenever one is present (and the container is well-formed,
i.e. has unique keys). -/
theorem readCluster_ID (bkt : Bucket) (c₀ c : Cluster) (s : String)
    (hnd : (bkt.map Prod.fst).Nodup) (hid : getValue bkt "id" = some s)
    (h : readCluster bkt c₀ = .ok c) : c.ID = s := by
  obtain ⟨c₁, rfl⟩ := readCluster_ok_inv bkt c₀ c h
  exact readClusterFields_ID_some bkt c₁ s hnd (getEntry_of_getValue bkt "id" s hid)

/-- Each cluster returned by the list fold decodes from the child
container of the corresponding collection entry. -/
theorem listGo_forall₂ (l : List (String × Entry)) :
    ∀ cs, listGo l = .ok cs →
      List.Forall₂ (fun (ent : String × Entry) (c : Cluster) =>
        ∃ cb, ent.2 = Entry.sub cb ∧ readCluster cb (emptyCluster ent.1) = .ok c) l cs := by
  induction l with
  | nil =>
    intro cs h
    injection h with h
    subst h
    exact List.Forall₂.nil
  | cons hd tl ih =>
    intro cs h
    obtain ⟨k, e⟩ := hd
    rcases e with v | cb
    · have hred : listGo ((k, Entry.val v) :: tl) = .error .incompatibleValue := rfl
      rw [hred] at h
      exact Except.noConfusion h
    · have hred : listGo ((k, Entry.sub cb) :: tl) =
          match readCluster cb (emptyCluster k) with
          | .error e => .error e
          | .ok c =>
            match listGo tl with
            | .error e => .error e
            | .ok cs => .ok (c :: cs) := rfl
      rw [hred] at h
      split at h
      · exact Except.noConfusion h
      · next c hc =>
        split at h
        · exact Except.noConfusion h
        · next cs' hcs =>
          injection h with h
          subst h
          exact List.Forall₂.cons ⟨cb, rfl, hc⟩ (ih cs' hcs)

/-- The batch label loop aborts with NotFound as soon as any identifier in
the batch has no entity container, provided every present entity in the
batch decodes (the store is uncorrupted). -/
theorem labelGo_notFound (now : Nat) (adds removes : List String) :
    ∀ (ids : List String) (bkt : Bucket),
      (∃ id ∈ ids, getBucket bkt id = none) →
      (∀ id ∈ ids, ∀ ib, getBucket bkt id = some ib →
        ∃ c', readCluster ib (emptyCluster id) = .ok c') →
      labelGo now adds removes ids bkt = .error .notFound := by
  intro ids
  induction ids with
  | nil =>
    intro bkt habs _
    obtain ⟨id, hm, _⟩ := habs
    exact absurd hm (List.not_mem_nil _)
  | cons id rest ih =>
    intro bkt habs hok
    rcases hb : getBucket bkt id with _ | ibkt
    · rw [labelGo, hb]
    · obtain ⟨c, hc⟩ := hok id (List.mem_cons_self _ _) ibkt hb
      have hrec : labelGo now adds removes rest
          (putSub bkt id (writeCluster ibkt
            { c with Labels := applyAddRemove (readLabels ibkt) adds removes,
                     UpdatedAt := now })) = .error .notFound := by
        refine ih _ ?_ ?_
        · obtain ⟨id2, hm2, habs2⟩ := habs
          have hne : id2 ≠ id := by
            intro he
            rw [he, hb] at habs2
            exact Option.noConfusion habs2
          rcases List.mem_cons.mp hm2 with he | hm2'
          · exact absurd he hne
          · exact ⟨id2, hm2', by rw [getBucket_putSub_ne _ _ _ _ hne]; exact habs2⟩
        · intro id2 hm2 ib hib
          by_cases hne : id2 = id
          · subst hne
            rw [getBucket_putSub_self] at hib
            injection hib with hib
            subst hib
            exact readCluster_writeCluster_ok _ _ _
          · rw [getBucket_putSub_ne _ _ _ _ hne] at hib
            exact hok id2 (List.mem_cons_of_mem _ hm2) ib hib
      simp only [labelGo, hb, hc, hrec]

/-- The exact multiplicity of any string in the generated label list: once
if it is some group's region, plus once if it is some group's instance
type. -/
theorem generateLabels_count (d : ClusterDefinition) (s : String) :
    (d.GenerateLabels).count s =
      (if s ∈ d.Groups.map ClusterGroup.Region then 1 else 0) +
      (if s ∈ d.Groups.map ClusterGroup.InstanceType then 1 else 0) := by
  simp [ClusterDefinition.GenerateLabels, List.count_append, List.count_dedup]

/-- Claim C1: for every valid Cluster value (labels within each label set
unique, per the §3 invariant; zero or more groups, with or without peers),
writing it with `writeCluster` into a fresh container and reading it back
with `readCluster` yields a Cluster equal to the original up to reordering
of label sets, with group order preserved exactly. -/
theorem claim_C1_roundtrip (c c₀ : Cluster) (h1 : c.Labels.Nodup)
    (h2 : ∀ g ∈ c.Definition.Groups, g.Labels.Nodup) :
    ∃ c', readCluster (writeCluster [] c) c₀ = .ok c' ∧ ClusterEquiv c' c := by
  refine ⟨c, readCluster_writeCluster_empty c c₀ h1 h2,
    rfl, rfl, rfl, rfl, List.Perm.refl _, ?_⟩
  exact List.forall₂_same.mpr (fun g _ => ⟨rfl, rfl, rfl, rfl, List.Perm.refl _⟩)

theorem claim_C1_roundtrip_witness :
    sampleCluster.Labels.Nodup ∧ (∀ g ∈ sampleCluster.Definition.Groups, g.Labels.Nodup) ∧
    ∃ c', readCluster (writeCluster [] sampleCluster) (emptyCluster "") = .ok c' ∧
      ClusterEquiv c' sampleCluster :=
  ⟨by decide, by decide,
    claim_C1_roundtrip sampleCluster (emptyCluster "") (by decide) (by decide)⟩

/-- Claim C5 counterexample: the claim says no string occurs more than
once in `GenerateLabels`' result regardless of how regions and instance
types overlap, but a definition whose single group has region and instance
type both `"x"` generates `["x", "x"]` — the region set and the
instance-type set are deduplicated separately and then appended. -/
theorem claim_C5_counterexample :
    (ClusterDefinition.GenerateLabels
      { Groups := [{ Size := 0, InstanceType := "x", Region := "x",
                     Peer := none, Labels := [] }] }).count "x" = 2 ∧
    ¬ (ClusterDefinition.GenerateLabels
      { Groups := [{ Size := 0, InstanceType := "x", Region := "x",
                     Peer := none, Labels := [] }] }).count "x" ≤ 1 := by
  decide

/-- Claim C5 (amended): `GenerateLabels` returns the union of the groups'
regions and instance types in the sense of membership; each string occurs
at most once as a region entry and at most once as an instance-type entry,
so it occurs twice exactly when it is both some group's region and some
group's instance type (and never more than twice). -/
theorem claim_C5_amended (d : ClusterDefinition) (s : String) :
    (s ∈ d.GenerateLabels ↔
      (∃ g ∈ d.Groups, g.Region = s) ∨ (∃ g ∈ d.Groups, g.InstanceType = s)) ∧
    (d.GenerateLabels).count s =
      (if s ∈ d.Groups.map ClusterGroup.Region then 1 else 0) +
      (if s ∈ d.Groups.map ClusterGroup.InstanceType then 1 else 0) := by
  constructor
  · simp [ClusterDefinition.GenerateLabels, List.mem_dedup, List.mem_map, eq_comm]
  · exact generateLabels_count d s

/-- Claim C3: a missing "definition" child container decodes to the empty
definition without error; group probing stops at the first missing decimal
index, so a gap truncates the decoded group list at the gap; and a group
whose nested peer-definition container is missing decodes with an absent
peer, not an error. -/
theorem claim_C3_decode_edges :
    (∀ bkt : Bucket, getBucket bkt "definition" = none →
      readClusterDefinition bkt = .ok { Groups := [] }) ∧
    (∀ (bkt dbkt : Bucket) (n : Nat) (cdef : ClusterDefinition),
      getBucket bkt "definition" = some dbkt →
      getBucket dbkt (itoaNat n) = none →
      readClusterDefinition bkt = .ok cdef → cdef.Groups.length ≤ n) ∧
    (∀ (bkt dbkt gbkt : Bucket) (j : Nat) (cdef : ClusterDefinition),
      getBucket bkt "definition" = some dbkt →
      readClusterDefinition bkt = .ok cdef →
      getBucket dbkt (itoaNat j) = some gbkt →
      getBucket gbkt "definition" = none →
      ∀ hj : j < cdef.Groups.length, (cdef.Groups.get ⟨j, hj⟩).Peer = none) := by
  refine ⟨?_, ?_, ?_⟩
  · intro bkt h
    simp [readClusterDefinition, h]
  · intro bkt dbkt n cdef hdef hmiss h
    simp only [readClusterDefinition, hdef] at h
    split at h
    · exact Except.noConfusion h
    · next gs hgs =>
      injection h with h
      subst h
      exact readGroups_length_le dbkt _ 0 gs n hgs (by simpa using hmiss)
  · intro bkt dbkt gbkt j cdef hdef h hj0 hpd hj
    simp only [readClusterDefinition, hdef] at h
    split at h
    · exact Except.noConfusion h
    · next gs hgs =>
      injection h with h
      subst h
      obtain ⟨gbkt', hget', hread'⟩ := readGroups_nth dbkt _ 0 _ hgs j hj
      rw [Nat.zero_add] at hget'
      rw [hj0] at hget'
      injection hget' with hget'
      subst hget'
      exact readGroup_peer_none _ _ hpd hread'

theorem claim_C3_decode_edges_witness :
    readClusterDefinition ([] : Bucket) = .ok { Groups := [] } ∧
    (readClusterDefinition c3bkt = .ok c3cdef ∧ c3cdef.Groups.length ≤ 1) ∧
    (c3cdef.Groups.get ⟨0, by decide⟩).Peer = none :=
  ⟨claim_C3_decode_edges.1 [] rfl,
   ⟨rfl, claim_C3_decode_edges.2.1 c3bkt c3dbkt 1 c3cdef rfl rfl rfl⟩,
   claim_C3_decode_edges.2.2 c3bkt c3dbkt [] 0 c3cdef rfl rfl rfl rfl (by decide)⟩

/-- Claim C2: once `CreateCluster` has succeeded for an identifier, a
second `CreateCluster` with the same identifier (whatever the rest of the
entity value) returns AlreadyExists and leaves the store — and so the
first entity's persisted state — exactly as it was. -/
theorem claim_C2_create_exactly_once (db db₁ : DB) (now now' : Nat) (c c₁ c₂ : Cluster)
    (h : CreateCluster db now c = (.ok c₁, db₁)) (hid : c₂.ID = c.ID) :
    CreateCluster db₁ now' c₂ = (.error .alreadyExists, db₁) := by
  rw [CreateCluster] at h
  split at h
  · exact absurd h (by simp)
  · next u hval =>
    split at h
    · exact absurd h (by simp)
    · exact absurd h (by simp)
    · next hnone =>
      obtain ⟨h1, h2⟩ := Prod.mk.injEq .. ▸ h
      have hval2 : c₂.Validate = .ok () := by
        unfold Cluster.Validate at hval ⊢
        rw [hid, hval]
      rw [CreateCluster, hval2, ← h2]
      have hget : getEntry
          ((DB.mk (some (putSub (db.clusters.getD []) c.ID
            (writeCluster [] { c with CreatedAt := now, UpdatedAt := now })))).clusters.getD [])
          c₂.ID = some (.sub (writeCluster [] { c with CreatedAt := now, UpdatedAt := now })) := by
        rw [hid]
        exact getEntry_putE_self _ _ _
      rw [hget]

theorem claim_C2_create_exactly_once_witness :
    CreateCluster ⟨none⟩ 3 c2w = (.ok c2res, c2db) ∧
    CreateCluster c2db 9 c2w = (.error .alreadyExists, c2db) :=
  ⟨rfl, claim_C2_create_exactly_once ⟨none⟩ c2db 3 9 c2w c2res c2w rfl rfl⟩

/-- Claim C9: a successful `CreateCluster` returns and persists the entity
with both timestamps set server-side to the creation instant, ignoring any
timestamp values the caller supplied (the conclusion holds for every input
cluster, whatever its `CreatedAt`/`UpdatedAt`). -/
theorem claim_C9_create_timestamps (db db' : DB) (now : Nat) (c c' : Cluster)
    (h : CreateCluster db now c = (.ok c', db')) :
    c'.CreatedAt = now ∧ c'.UpdatedAt = now ∧ c'.ID = c.ID ∧ c'.Status = c.Status ∧
    c'.Definition = c.Definition ∧ c'.Labels = c.Labels ∧
    ∃ bkt cbkt, db'.clusters = some bkt ∧ getBucket bkt c.ID = some cbkt ∧
      getValue cbkt "created_at" = some (itoaNat now) ∧
      getValue cbkt "updated_at" = some (itoaNat now) := by
  rw [CreateCluster] at h
  split at h
  · exact absurd h (by simp)
  · split at h
    · exact absurd h (by simp)
    · exact absurd h (by simp)
    · next hnone =>
      obtain ⟨h1, h2⟩ := Prod.mk.injEq .. ▸ h
      injection h1 with h1
      subst h1
      subst h2
      refine ⟨rfl, rfl, rfl, rfl, rfl, rfl, _, _, rfl, getBucket_putSub_self _ _ _, ?_, ?_⟩
      · exact getValue_writeCluster_created [] _
      · exact getValue_writeCluster_updated [] _

theorem claim_C9_create_timestamps_witness :
    CreateCluster ⟨none⟩ 7 c9w = (.ok c9res, c9db) ∧
    (c9res.CreatedAt = 7 ∧ c9res.UpdatedAt = 7 ∧ c9res.ID = c9w.ID ∧
     c9res.Status = c9w.Status ∧ c9res.Definition = c9w.Definition ∧
     c9res.Labels = c9w.Labels ∧
     ∃ bkt cbkt, c9db.clusters = some bkt ∧ getBucket bkt c9w.ID = some cbkt ∧
       getValue cbkt "created_at" = some (itoaNat 7) ∧
       getValue cbkt "updated_at" = some (itoaNat 7)) :=
  ⟨rfl, claim_C9_create_timestamps ⟨none⟩ c9db 7 c9w c9res rfl⟩

/-- Claim C4 counterexample: the claim says a successful `UpdateCluster`
leaves the persisted created-timestamp unchanged from its previously
committed value, but `writeCluster` writes the caller-supplied
`CreatedAt`: updating the entity below (committed created-timestamp `5`)
with an input carrying `CreatedAt := 999` persists `"999"`. -/
theorem claim_C4_counterexample :
    (∃ bkt cbkt, (DB.mk (some [("a", Entry.sub
        [("created_at", Entry.val "5"), ("updated_at", Entry.val "5"),
         ("id", Entry.val "a"), ("status", Entry.val "")])])).clusters = some bkt ∧
      getBucket bkt "a" = some cbkt ∧ getValue cbkt "created_at" = some "5") ∧
    (∃ c' bkt' cbkt',
      (UpdateCluster (DB.mk (some [("a", Entry.sub
        [("created_at", Entry.val "5"), ("updated_at", Entry.val "5"),
         ("id", Entry.val "a"), ("status", Entry.val "")])])) 7
        { ID := "a", Status := "", Definition := { Groups := [] }, Labels := [],
          CreatedAt := 999, UpdatedAt := 0 }) =
        (.ok c', ⟨some bkt'⟩) ∧
      getBucket bkt' "a" = some cbkt' ∧
      getValue cbkt' "created_at" = some "999" ∧ "999" ≠ "5") :=
  ⟨⟨_, _, rfl, rfl, rfl⟩, ⟨_, _, _, rfl, rfl, rfl, by decide⟩⟩

/-- Claim C4 (amended): a successful `UpdateCluster` preserves the
persisted identifier and sets the updated-timestamp to the current
instant, which is ≥ the previously committed updated-timestamp whenever
the clock has not gone backwards past it; the persisted created-timestamp
however is set to the caller-supplied value, so it equals its previously
committed value only when the caller supplies that value (e.g. an entity
previously read via `GetCluster`). -/
theorem claim_C4_amended (db db' : DB) (now uOld : Nat) (c c' : Cluster)
    (bkt₀ cbkt₀ : Bucket)
    (hb : db.clusters = some bkt₀) (hcb : getBucket bkt₀ c.ID = some cbkt₀)
    (hold : getValue cbkt₀ "updated_at" = some (itoaNat uOld))
    (hclock : uOld ≤ now)
    (h : UpdateCluster db now c = (.ok c', db')) :
    c'.ID = c.ID ∧ c'.CreatedAt = c.CreatedAt ∧ c'.UpdatedAt = now ∧
    ∃ bkt cbkt, db'.clusters = some bkt ∧ getBucket bkt c.ID = some cbkt ∧
      getValue cbkt "id" = some c.ID ∧
      getValue cbkt "created_at" = some (itoaNat c.CreatedAt) ∧
      ∃ uNew, getValue cbkt "updated_at" = some (itoaNat uNew) ∧ uOld ≤ uNew := by
  rw [UpdateCluster] at h
  split at h
  · exact absurd h (by simp)
  · split at h
    · exact absurd h (by simp)
    · next cbkt hcb2 =>
      obtain ⟨h1, h2⟩ := Prod.mk.injEq .. ▸ h
      injection h1 with h1
      subst h1
      subst h2
      refine ⟨rfl, rfl, rfl, _, _, rfl, getBucket_putSub_self _ _ _, ?_, ?_,
        now, ?_, hclock⟩
      · exact getValue_writeCluster_id _ _
      · exact getValue_writeCluster_created _ _
      · exact getValue_writeCluster_updated _ _

theorem claim_C4_amended_witness :
    (5 : Nat) ≤ 7 ∧ UpdateCluster c4db 7 c4in = (.ok c4res, c4dbAfter) ∧
    (c4res.ID = c4in.ID ∧ c4res.CreatedAt = c4in.CreatedAt ∧ c4res.UpdatedAt = 7 ∧
     ∃ bkt cbkt, c4dbAfter.clusters = some bkt ∧ getBucket bkt c4in.ID = some cbkt ∧
       getValue cbkt "id" = some c4in.ID ∧
       getValue cbkt "created_at" = some (itoaNat c4in.CreatedAt) ∧
       ∃ uNew, getValue cbkt "updated_at" = some (itoaNat uNew) ∧ 5 ≤ uNew) :=
  ⟨by decide, rfl,
   claim_C4_amended c4db c4dbAfter 7 5 c4in c4res [("a", Entry.sub c4bkt)] c4bkt
     rfl rfl rfl (by decide) rfl⟩

/-- Claim C6: if any group the decoder visits (a dense run of present
indices leads to it) stores a size field whose text does not parse as a
decimal integer, decoding the cluster fails, and the error is the
FormatError class — no value is ever silently substituted, because the
only non-failing paths run `strconv.Atoi` successfully on every visited
size field. -/
theorem claim_C6_bad_size (bkt dbkt gbkt : Bucket) (i : Nat) (s : String) (c₀ : Cluster)
    (hdef : getBucket bkt "definition" = some dbkt)
    (hdense : ∀ j, j ≤ i → (getBucket dbkt (itoaNat j)).isSome)
    (hg : getBucket dbkt (itoaNat i) = some gbkt)
    (hs : getValue gbkt "size" = some s)
    (hbad : ∀ n, atoi s ≠ .ok n) :
    readCluster bkt c₀ = .error .formatError := by
  rcases hres : readCluster bkt c₀ with e | c
  · rw [readCluster_error bkt c₀ e hres]
  · exfalso
    have hdok : ∃ cdef, readClusterDefinition bkt = .ok cdef := by
      unfold readCluster at hres
      split at hres
      · exact Except.noConfusion hres
      · split at hres
        · exact Except.noConfusion hres
        · next cdef hcdef => exact ⟨cdef, hcdef⟩
    obtain ⟨cdef, hcdef⟩ := hdok
    simp only [readClusterDefinition, hdef] at hcdef
    have hgs : ∃ gs, readGroups dbkt 0 (dbkt.length + 1) = .ok gs := by
      split at hcdef
      · exact Except.noConfusion hcdef
      · next gs hgs => exact ⟨gs, hgs⟩
    obtain ⟨gs, hgs⟩ := hgs
    have hbound : i < dbkt.length := present_indices_bound dbkt i hdense
    obtain ⟨g, hgok⟩ := readGroups_ok_probe dbkt (dbkt.length + 1) 0 gs hgs i
      (by omega) (by simpa using hdense) gbkt (by simpa using hg)
    have hmem := mem_of_getValue_some gbkt "size" s hs
    obtain ⟨n, hn⟩ := readGroupFields_size_ok gbkt _ g s hgok hmem
    exact hbad n hn

theorem claim_C6_bad_size_witness :
    readCluster c6bkt (emptyCluster "z") = .error .formatError :=
  claim_C6_bad_size c6bkt [("0", Entry.sub [("size", Entry.val "oops")])]
    [("size", Entry.val "oops")] 0 "oops" (emptyCluster "z") rfl
    (fun j hj => by
      have hj0 : j = 0 := Nat.le_zero.mp hj
      subst hj0
      rfl)
    rfl rfl
    (fun n hn => by
      rw [show atoi "oops" = .error .formatError from rfl] at hn
      exact Except.noConfusion hn)

/-- Claim C7: the label batch update is all-or-nothing — if any identifier
in the batch has no entity container, `LabelClusters` returns NotFound and
the store is returned unchanged (no labels changed, no updated-timestamp
refreshed), provided every present entity in the batch decodes (the store
is uncorrupted; a corrupted entity would abort the same transaction with a
FormatError instead). -/
theorem claim_C7_batch_atomic (db : DB) (now : Nat) (ids adds removes : List String)
    (habs : ∃ id ∈ ids, getBucket (db.clusters.getD []) id = none)
    (hok : ∀ id ∈ ids, ∀ ib, getBucket (db.clusters.getD []) id = some ib →
      ∃ c', readCluster ib (emptyCluster id) = .ok c') :
    LabelClusters db now ids adds removes = (.error .notFound, db) := by
  have h := labelGo_notFound now adds removes ids (db.clusters.getD []) habs hok
  simp [LabelClusters, h]

theorem claim_C7_batch_atomic_witness :
    LabelClusters c7db 5 ["a", "zzz"] ["p"] [] = (.error .notFound, c7db) := by
  refine claim_C7_batch_atomic c7db 5 _ _ _ ⟨"zzz", by simp, rfl⟩ ?_
  intro id hm ib hib
  rcases List.mem_cons.mp hm with rfl | hm2
  · rw [show getBucket (c7db.clusters.getD []) "a" = some (writeCluster [] c7c)
        from rfl] at hib
    injection hib with hib
    subst hib
    exact readCluster_writeCluster_ok [] c7c (emptyCluster "a")
  · have h2 : id = "zzz" := by simpa using hm2
    subst h2
    exact Option.noConfusion hib

/-- Claim C8: deleting an identifier whose container is absent from an
existing clusters collection reports NotFound, deleting when the whole
collection is absent is a no-op success, and after a successful delete a
Get of the same identifier reports NotFound. -/
theorem claim_C8_delete :
    (∀ (db : DB) (id : String), db.clusters = none →
      DeleteCluster db id = (.ok (), db)) ∧
    (∀ (db : DB) (id : String) (bkt : Bucket), db.clusters = some bkt →
      getEntry bkt id = none → DeleteCluster db id = (.error .notFound, db)) ∧
    (∀ (db db' : DB) (id : String) (u : Unit),
      (∀ bkt, db.clusters = some bkt → (keysOf bkt).Nodup) →
      DeleteCluster db id = (.ok u, db') → GetCluster db' id = .error .notFound) := by
  refine ⟨?_, ?_, ?_⟩
  · intro db id h
    simp [DeleteCluster, h]
  · intro db id bkt hdb hent
    simp [DeleteCluster, hdb, hent]
  · intro db db' id u hw h
    rcases hdb : db.clusters with _ | bkt
    · simp only [DeleteCluster, hdb] at h
      obtain ⟨h1, h2⟩ := Prod.mk.injEq .. ▸ h
      subst h2
      simp [GetCluster, hdb]
    · simp only [DeleteCluster, hdb] at h
      split at h
      · exact absurd h (by simp)
      · exact absurd h (by simp)
      · obtain ⟨h1, h2⟩ := Prod.mk.injEq .. ▸ h
        subst h2
        have hkill : getBucket (eraseKey bkt id) id = none := by
          unfold getBucket
          rw [getEntry_eraseKey_self bkt id (hw bkt hdb)]
        simp [GetCluster, hkill]

theorem claim_C8_delete_witness :
    DeleteCluster ⟨none⟩ "x" = (.ok (), ⟨none⟩) ∧
    DeleteCluster ⟨some []⟩ "x" = (.error .notFound, ⟨some []⟩) ∧
    GetCluster ⟨some ([] : Bucket)⟩ "a" = .error .notFound :=
  ⟨claim_C8_delete.1 ⟨none⟩ "x" rfl,
   claim_C8_delete.2.1 ⟨some []⟩ "x" [] rfl rfl,
   claim_C8_delete.2.2 ⟨some [("a", Entry.sub [])]⟩ ⟨some []⟩ "a" ()
     (fun bkt hb => by
       injection hb with hb
       rw [← hb]
       decide)
     rfl⟩

/-- Claim C10: whenever a stored entity has an "id" flat field, the
Cluster returned for it by `GetCluster` or `ListClusters` carries that
field's value as its ID — the decoder's field fold overwrites the
identifier pre-set from the lookup argument or the container key. -/
theorem claim_C10_id_overwrite :
    (∀ (db : DB) (id s : String) (bkt cbkt : Bucket) (c : Cluster),
      db.clusters = some bkt → getBucket bkt id = some cbkt →
      (cbkt.map Prod.fst).Nodup → getValue cbkt "id" = some s →
      GetCluster db id = .ok c → c.ID = s) ∧
    (∀ (db : DB) (bkt : Bucket) (cs : List Cluster), db.clusters = some bkt →
      ListClusters db = .ok cs →
      List.Forall₂ (fun (ent : String × Entry) (c : Cluster) =>
        ∀ (cb : Bucket) (s : String), ent.2 = Entry.sub cb →
          (cb.map Prod.fst).Nodup → getValue cb "id" = some s → c.ID = s) bkt cs) := by
  constructor
  · intro db id s bkt cbkt c hdb hcb hnd hid h
    simp only [GetCluster, hdb, hcb] at h
    exact readCluster_ID cbkt (emptyCluster id) c s hnd hid h
  · intro db bkt cs hdb h
    rw [ListClusters, hdb] at h
    refine (listGo_forall₂ bkt cs h).imp ?_
    rintro ⟨k, e⟩ c ⟨cb', hsub, hread⟩ cb s hsub2 hnd hid
    rw [hsub] at hsub2
    injection hsub2 with hsub2
    subst hsub2
    exact readCluster_ID cb' (emptyCluster k) c s hnd hid hread

theorem claim_C10_id_overwrite_witness :
    GetCluster c10db "k" = .ok c10res ∧ c10res.ID = "other" :=
  ⟨rfl, claim_C10_id_overwrite.1 c10db "k" "other" _ [("id", Entry.val "other")] c10res
    rfl rfl (by decide) rfl rfl⟩

end P2plab
